import Mathlib

/-!
Verification of the web-crawler core (scheduler, deduplicator, fetcher,
parser, indexer) against its natural-language specification.

The C++ sources are shallowly embedded as executable Lean definitions:

* strings are Lean strings (the relevant code is ASCII-only; character
  classes such as isspace / isalnum are the ASCII «C» locale ones used by
  the source);
* the steady clock is a natural number of milliseconds, passed explicitly
  as a parameter wherever the source reads the clock;
* machine integers (uint64_t) are naturals reduced modulo 2^64 where
  overflow matters;
* container types: std::priority_queue is a list popped at a maximal
  priority element, std::unordered_map / std::unordered_set are
  association lists / lists with first-occurrence lookup, since these
  components only observe lookup, insert and update;
* remote I/O (hiredis) and HTTP transport (libcurl) are modelled as
  oracles passed explicitly: one remote reply per remote command, a world
  function mapping URLs to HTTP responses for the fetcher;
* C++ doubles are modelled as exact rationals, and the only transcendental
  operation used by the code (std::log inside BM25 idf) is abstracted as a
  function parameter.
-/

namespace Crawler

/-! ### Character classes (C locale, as used by the source) -/

/-- Whitespace for std::isspace and the regex class backslash-s:
space, tab, newline, vertical tab, form feed, carriage return. -/
def isSpaceChar (c : Char) : Bool :=
  c == ' ' || c == '\t' || c == '\n' || c == '\x0b' || c == '\x0c' || c == '\r'

/-- ASCII tolower, as applied char-by-char by std::transform with ::tolower. -/
def cppTolower (c : Char) : Char :=
  if 'A' ≤ c && c ≤ 'Z' then Char.ofNat (c.toNat + 32) else c

/-- Word character of the regex class backslash-w: letters, digits, underscore. -/
def isWordChar (c : Char) : Bool :=
  c.isAlphanum || c == '_'

/-! ### UrlUtils (src/utils/url_utils.cpp) -/

/-- UrlUtils::canonicalize: truncate the string at the first '#'
(find('#') followed by substr(0, pos)); everything else is left as is
(the query-sorting step is an unimplemented TODO in the source). -/
def canonicalize (url : String) : String :=
  ⟨url.toList.takeWhile (fun c => c != '#')⟩

/-- Matching the scheme prefix of the anchored part of the regexes
https?:// used by UrlUtils::is_valid and UrlUtils::extract_domain:
returns the remainder after http:// or https:// when one of them is a
prefix at this position. -/
def schemeSplit (l : List Char) : Option (List Char) :=
  if l.take 7 = "http://".toList then some (l.drop 7)
  else if l.take 8 = "https://".toList then some (l.drop 8)
  else none

/-- UrlUtils::is_valid: regex_match (whole-string match) against
https?://[^\s]+ — a scheme prefix followed by one or more
non-whitespace characters and nothing else. -/
def is_valid (url : String) : Bool :=
  match schemeSplit url.toList with
  | some rest => rest ≠ [] && rest.all (fun c => !isSpaceChar c)
  | none => false

/-- UrlUtils::extract_domain on character lists: regex_search for
https?://([^/]+) — leftmost position where the scheme matches and is
followed by at least one non-slash character; the capture is the
maximal run of non-slash characters. Returns [] when there is no match. -/
def extract_domain_list : List Char → List Char
  | [] => []
  | c :: rest =>
    match schemeSplit (c :: rest) with
    | some tail =>
      let dom := tail.takeWhile (fun ch => ch != '/')
      if dom = [] then extract_domain_list rest else dom
    | none => extract_domain_list rest

/-- UrlUtils::extract_domain (src/utils/url_utils.cpp lines 24-31). -/
def extract_domain (url : String) : String :=
  ⟨extract_domain_list url.toList⟩

/-! ### HashUtils (src/utils/hash_utils.cpp)

The source compiles the fallback branch of HashUtils::xxhash (XXHASH_H is
never defined: xxhash.h is not included), i.e. the djb2 loop
hash = hash * 33 + c over the bytes of the string, in uint64_t
arithmetic. Characters here are Lean chars; on the ASCII strings the
crawler handles this coincides with the byte loop of the source. -/

/-- One djb2 step in uint64_t arithmetic: ((hash << 5) + hash) + c. -/
def djb2Step (h : Nat) (c : Nat) : Nat :=
  (h * 33 + c) % 2 ^ 64

/-- HashUtils::xxhash — the compiled fallback: djb2 with seed 5381. -/
def xxhash (data : String) : Nat :=
  data.toList.foldl (fun h c => djb2Step h c.toNat) 5381

/-- HashUtils::hash_url. -/
def hash_url (url : String) : Nat := xxhash url

/-- HashUtils::hash_content. -/
def hash_content (content : String) : Nat := xxhash content

/-! ### Scheduler (src/scheduler/scheduler.cpp)

Time is the steady clock in milliseconds; every member function that
reads the clock takes the current instant now as an explicit argument.
The task priority_queue is a list; pop extracts the first element of
maximal priority (the CrawlTask operator< compares priority only, so any
maximal element is a faithful pop; ties are resolved deterministically
here to keep the model executable). -/

structure CrawlTask where
  url : String
  priority : Int
  retry_count : Nat
  next_retry_time : Nat
deriving Repr, DecidableEq

structure SchedulerState where
  task_queue : List CrawlTask
  domain_backoff : List (String × Nat)
  total_scheduled : Nat
  total_completed : Nat
  total_failed : Nat
  max_retries : Nat
  retry_backoff_ms : Nat
deriving Repr, DecidableEq

/-- Pop of the priority_queue: remove a task of maximal priority
(first such task in the list). Returns none on the empty queue. -/
def heapPop : List CrawlTask → Option (CrawlTask × List CrawlTask)
  | [] => none
  | t :: ts =>
    match heapPop ts with
    | none => some (t, [])
    | some (u, rest) =>
      if u.priority > t.priority then some (u, t :: rest) else some (t, ts)

/-- Lookup in the domain_backoff unordered_map. -/
def lookupBackoff (backoff : List (String × Nat)) (domain : String) : Option Nat :=
  (backoff.find? (fun p => p.1 == domain)).map Prod.snd

/-- Update of the domain_backoff unordered_map at a key. -/
def setBackoff : List (String × Nat) → String → Nat → List (String × Nat)
  | [], d, t => [(d, t)]
  | (k, v) :: rest, d, t =>
    if k == d then (d, t) :: rest else (k, v) :: setBackoff rest d t

/-- Scheduler::add_url: canonicalize, validate, and on success push a
fresh task (retry_count 0, next_retry_time now) and count it;
on an invalid URL return false leaving the state untouched. -/
def add_url (st : SchedulerState) (url : String) (priority : Int) (now : Nat) :
    Bool × SchedulerState :=
  let normalized := canonicalize url
  if !is_valid normalized then (false, st)
  else
    let task : CrawlTask :=
      { url := normalized, priority := priority, retry_count := 0, next_retry_time := now }
    (true, { st with
      task_queue := st.task_queue ++ [task],
      total_scheduled := st.total_scheduled + 1 })

/-- Scheduler::can_fetch_domain: a missing entry means the domain is
free; otherwise the host may be fetched once now has reached the
recorded instant. -/
def can_fetch_domain (st : SchedulerState) (domain : String) (now : Nat) : Bool :=
  match lookupBackoff st.domain_backoff domain with
  | none => true
  | some t => now ≥ t

/-- Scheduler::update_domain_backoff: domain_backoff[domain] :=
now + 1 second (hard-coded std::chrono::seconds(1)). -/
def update_domain_backoff (st : SchedulerState) (domain : String) (now : Nat) :
    SchedulerState :=
  { st with domain_backoff := setBackoff st.domain_backoff domain (now + 1000) }

/-- Scheduler::get_next_task (non-blocking core): pop the top task; if
its retry instant is still in the future, or its domain is backed off,
push it back and report no task; otherwise hand it out. -/
def get_next_task (st : SchedulerState) (now : Nat) :
    Option CrawlTask × SchedulerState :=
  match heapPop st.task_queue with
  | none => (none, st)
  | some (task, rest) =>
    if now < task.next_retry_time then
      (none, { st with task_queue := rest ++ [task] })
    else
      if !can_fetch_domain st (extract_domain task.url) now then
        (none, { st with task_queue := rest ++ [task] })
      else
        (some task, { st with task_queue := rest })

/-- Scheduler::mark_completed: only increments total_completed (and
fires the optional callback); the queue and the backoff map are not
touched. -/
def mark_completed (st : SchedulerState) (url : String) : SchedulerState :=
  { st with total_completed := st.total_completed + 1 }

/-- Scheduler::mark_failed: without retry, count a permanent failure;
with retry, push a task with retry_count hard-coded to 1 (the source
comment reads Simplified) and next_retry_time = now + retry_backoff_ms,
then update the domain backoff of the URL's host. -/
def mark_failed (st : SchedulerState) (url : String) (will_retry : Bool) (now : Nat) :
    SchedulerState :=
  if !will_retry then { st with total_failed := st.total_failed + 1 }
  else
    let task : CrawlTask :=
      { url := url, priority := 0, retry_count := 1,
        next_retry_time := now + st.retry_backoff_ms }
    update_domain_backoff
      { st with task_queue := st.task_queue ++ [task] }
      (extract_domain url) now

/-! ### Deduplicator (src/dedup/dedup.cpp)

The hiredis connection is modelled by an oracle argument: each private
remote helper receives the reply the remote tier would produce for its
single redisCommand call — some b for an EXISTS answer, some () for a
successful write, none for a null reply (remote I/O error). The
redisContext pointer is the flag has_redis_context. -/

structure DedupState where
  local_url_set : List Nat
  local_content_set : List Nat
  use_local_fallback : Bool
  redis_available : Bool
  has_redis_context : Bool
  url_duplicates : Nat
  content_duplicates : Nat
  redis_hits : Nat
  redis_misses : Nat
deriving Repr, DecidableEq

/-- Insertion into an unordered_set modelled as a duplicate-free list. -/
def insertSet (s : List Nat) (h : Nat) : List Nat :=
  if h ∈ s then s else s ++ [h]

/-- Deduplicator::init_redis: on a successful connection install the
context and enable the remote tier; on failure mark it unavailable. -/
def init_redis (st : DedupState) (conn_ok : Bool) : Bool × DedupState :=
  if conn_ok then
    (true, { st with has_redis_context := true, redis_available := true })
  else
    (false, { st with redis_available := false })

/-- Deduplicator::check_redis_url: null context reads as false; a null
reply (remote error) clears redis_available and reads as false;
otherwise the EXISTS answer. The key argument is kept for fidelity. -/
def check_redis_url (st : DedupState) (key : String) (reply : Option Bool) :
    Bool × DedupState :=
  if !st.has_redis_context then (false, st)
  else
    match reply with
    | none => (false, { st with redis_available := false })
    | some b => (b, st)

/-- Deduplicator::check_redis_content: same body as check_redis_url. -/
def check_redis_content (st : DedupState) (key : String) (reply : Option Bool) :
    Bool × DedupState :=
  if !st.has_redis_context then (false, st)
  else
    match reply with
    | none => (false, { st with redis_available := false })
    | some b => (b, st)

/-- Deduplicator::mark_redis_url: SETEX with 24h TTL; a null reply
clears redis_available; no value is returned. -/
def mark_redis_url (st : DedupState) (key : String) (reply : Option Unit) :
    DedupState :=
  if !st.has_redis_context then st
  else
    match reply with
    | none => { st with redis_available := false }
    | some _ => st

/-- Deduplicator::mark_redis_content: same shape as mark_redis_url
(the doc_id becomes the stored value, which the model does not read). -/
def mark_redis_content (st : DedupState) (key : String) (doc_id : String)
    (reply : Option Unit) : DedupState :=
  if !st.has_redis_context then st
  else
    match reply with
    | none => { st with redis_available := false }
    | some _ => st

/-- Local-set fallback block of Deduplicator::is_url_seen (lines 49-58):
consulted when use_local_fallback_ or the remote tier is unavailable;
a hit bumps url_duplicates. Falls through to false otherwise. -/
def local_url_lookup (st : DedupState) (url_hash : Nat) : Bool × DedupState :=
  if st.use_local_fallback || !st.redis_available then
    if url_hash ∈ st.local_url_set then
      (true, { st with url_duplicates := st.url_duplicates + 1 })
    else (false, st)
  else (false, st)

/-- Local-set fallback block of Deduplicator::is_content_seen
(lines 99-106). -/
def local_content_lookup (st : DedupState) (hash : Nat) : Bool × DedupState :=
  if st.use_local_fallback || !st.redis_available then
    if hash ∈ st.local_content_set then
      (true, { st with content_duplicates := st.content_duplicates + 1 })
    else (false, st)
  else (false, st)

/-- Deduplicator::is_url_seen: canonicalize and hash the URL, try the
remote tier first when available (a hit bumps redis_hits and
url_duplicates, a miss bumps redis_misses), then fall back to the local
set. The reply argument is the remote oracle for this call. -/
def is_url_seen (st : DedupState) (reply : Option Bool) (url : String) :
    Bool × DedupState :=
  let url_hash := hash_url (canonicalize url)
  if st.redis_available then
    let res := check_redis_url st ("dedup:url:" ++ toString url_hash) reply
    if res.1 then
      (true, { res.2 with
        redis_hits := res.2.redis_hits + 1,
        url_duplicates := res.2.url_duplicates + 1 })
    else
      local_url_lookup
        { res.2 with redis_misses := res.2.redis_misses + 1 } url_hash
  else
    local_url_lookup st url_hash

/-- Deduplicator::mark_url_seen: write through the remote tier when
available, then record in the local set when use_local_fallback_ holds
or the remote tier is (by now) unavailable. -/
def mark_url_seen (st : DedupState) (reply : Option Unit) (url : String) :
    DedupState :=
  let url_hash := hash_url (canonicalize url)
  let st1 :=
    if st.redis_available then
      mark_redis_url st ("dedup:url:" ++ toString url_hash) reply
    else st
  if st1.use_local_fallback || !st1.redis_available then
    { st1 with local_url_set := insertSet st1.local_url_set url_hash }
  else st1

/-- Conversion of std::stoull(s) with its exceptions mapped to none:
skip leading isspace characters, an optional sign, then base-10 digits;
no digits is invalid_argument, a value beyond ULLONG_MAX is
out_of_range; a minus sign wraps the value modulo 2^64 (strtoull). -/
def stoull (s : String) : Option Nat :=
  let l := s.toList.dropWhile isSpaceChar
  let signed : Bool × List Char :=
    match l with
    | '-' :: rest => (true, rest)
    | '+' :: rest => (false, rest)
    | _ => (false, l)
  let digits := signed.2.takeWhile Char.isDigit
  if digits = [] then none
  else
    let v := digits.foldl (fun acc c => acc * 10 + (c.toNat - 48)) 0
    if v ≥ 2 ^ 64 then none
    else some (if signed.1 then (2 ^ 64 - v) % 2 ^ 64 else v)

/-- Key derivation shared by is_content_seen and mark_content_seen
(lines 79-85 and 112-117): parse the content-hash string with
std::stoull, and on either exception hash the string itself. -/
def content_key (content_hash : String) : Nat :=
  match stoull content_hash with
  | some v => v
  | none => hash_content content_hash

/-- Deduplicator::is_content_seen: derive the 64-bit key, try the remote
tier first when available (keyed by the raw content-hash string), then
fall back to the local set. -/
def is_content_seen (st : DedupState) (reply : Option Bool) (content_hash : String) :
    Bool × DedupState :=
  let hash := content_key content_hash
  if st.redis_available then
    let res := check_redis_content st ("dedup:content:" ++ content_hash) reply
    if res.1 then
      (true, { res.2 with
        redis_hits := res.2.redis_hits + 1,
        content_duplicates := res.2.content_duplicates + 1 })
    else
      local_content_lookup
        { res.2 with redis_misses := res.2.redis_misses + 1 } hash
  else
    local_content_lookup st hash

/-- Deduplicator::mark_content_seen: derive the 64-bit key, write
through the remote tier when available, then record in the local set
when use_local_fallback_ holds or the remote tier is unavailable. -/
def mark_content_seen (st : DedupState) (reply : Option Unit)
    (content_hash doc_id : String) : DedupState :=
  let hash := content_key content_hash
  let st1 :=
    if st.redis_available then
      mark_redis_content st ("dedup:content:" ++ content_hash) doc_id reply
    else st
  if st1.use_local_fallback || !st1.redis_available then
    { st1 with local_content_set := insertSet st1.local_content_set hash }
  else st1

/-! ### Fetcher (src/fetcher/fetcher.cpp)

The libcurl transport is a world oracle mapping each URL to what
curl_easy_perform observes for it: an HTTP response (status, body, and
the redirect Location when present) or a transport error. URLs are an
arbitrary type: Fetcher::fetch_impl treats them opaquely. -/

inductive HttpStep (α : Type) where
  | response (status : Nat) (body : String) (location : Option α)
  | transportError (msg : String)
deriving Repr, DecidableEq

structure FetchResult (α : Type) where
  success : Bool := false
  http_status : Nat := 0
  content : String := ""
  redirects : List α := []
  error_message : String := ""
deriving Repr, DecidableEq

/-- Fetcher::fetch_impl: refuse once redirect_count exceeds
max_redirects (Too many redirects); otherwise perform the request: a
2xx succeeds with the body, a 3xx with a Location recurses on the
target and prepends it to the redirect chain, everything else (other
statuses, 3xx without Location, transport errors) fails with the status
or the transport message. Failures are values, never exceptions. -/
def fetch_impl {α : Type} (world : α → HttpStep α) (max_redirects : Nat)
    (url : α) (redirect_count : Nat) : FetchResult α :=
  if h : redirect_count > max_redirects then
    { success := false, error_message := "Too many redirects" }
  else
    match world url with
    | .transportError msg =>
      { success := false, error_message := msg }
    | .response status body location =>
      if 200 ≤ status ∧ status < 300 then
        { success := true, http_status := status, content := body }
      else if 300 ≤ status ∧ status < 400 then
        match location with
        | some loc =>
          let r := fetch_impl world max_redirects loc (redirect_count + 1)
          { r with redirects := loc :: r.redirects }
        | none => { success := false, http_status := status }
      else
        { success := false, http_status := status }
termination_by max_redirects + 1 - redirect_count
decreasing_by omega

/-- A redirect chain world over URLs 0, 1, ..., n: every URL below n
redirects (301) to its successor, URL n answers 200. Used to exercise
the redirect bound of fetch_impl. -/
def chainWorld (n : Nat) (u : Nat) : HttpStep Nat :=
  if u < n then .response 301 "" (some (u + 1))
  else if u = n then .response 200 "ok" none
  else .transportError "unknown host"

/-! ### Parser / tokenizer (src/parser/parser.cpp)

Only the token pipeline is embedded (Parser::tokenize,
Parser::normalize_token and the position-building loop of Parser::parse,
lines 47-56): the DOM walk (gumbo) only produces the text these operate
on, and the claims under verification are parametric in that text. -/

/-- Maximal runs of characters satisfying p, in order, with explicit
fuel to keep the recursion structural (fuel = length of the list always
suffices, since each step consumes at least one character). -/
def splitRunsF (p : Char → Bool) : Nat → List Char → List (List Char)
  | 0, _ => []
  | _, [] => []
  | fuel + 1, c :: rest =>
    if p c then
      (c :: rest.takeWhile p) :: splitRunsF p fuel (rest.dropWhile p)
    else
      splitRunsF p fuel rest

/-- Maximal runs of characters satisfying p, in order. With p the
word-character class this is the regex token split used by
Parser::tokenize; with the non-whitespace class it is the
istringstream extraction used by Indexer::search. -/
def splitRuns (p : Char → Bool) (l : List Char) : List (List Char) :=
  splitRunsF p l.length l

/-- Parser::tokenize: all maximal word-character runs of the text. -/
def tokenize (text : String) : List String :=
  (splitRuns isWordChar text.toList).map fun l => ⟨l⟩

/-- Parser::normalize_token: lowercase, then erase every character that
is not alphanumeric. -/
def normalize_token (token : String) : String :=
  ⟨(token.toList.map cppTolower).filter Char.isAlphanum⟩

/-- Appending one value to the list stored under a key of an
unordered_map from strings to vectors: extend the entry, or create it.
This is the push_back pattern shared by the parser position map and the
indexer inverted index. -/
def appendAssoc {β : Type} : List (String × List β) → String → β → List (String × List β)
  | [], term, v => [(term, [v])]
  | (k, vs) :: rest, term, v =>
    if k == term then (k, vs ++ [v]) :: rest
    else (k, vs) :: appendAssoc rest term v

/-- Appending one raw-stream position to term_positions[term]. -/
def addPosition (tp : List (String × List Nat)) (term : String) (i : Nat) :
    List (String × List Nat) :=
  appendAssoc tp term i

/-- Position-building loop of Parser::parse (lines 51-56): for each raw
token index i, append i under the normalized token unless the
normalization is empty. -/
def build_term_positions (tokens : List String) : List (String × List Nat) :=
  tokens.enum.foldl
    (fun tp p =>
      let normalized := normalize_token p.2
      if normalized = "" then tp else addPosition tp normalized p.1)
    []

/-- Lookup in an unordered_map keyed by strings (first occurrence). -/
def lookupTerm {β : Type} (m : List (String × β)) (t : String) : Option β :=
  (m.find? (fun e => e.1 == t)).map Prod.snd

/-! ### Indexer (src/indexer/indexer.cpp)

Doubles are exact rationals; std::log — the only transcendental the
code uses, inside the idf — is an explicit function parameter logFn of
Indexer::search. The unordered_map score accumulator of search is copied
into a vector in unspecified iteration order before std::sort; that copy
is the explicit parameter iter, and std::sort (unstable, comparator on
the score only) is modelled as a stable insertion sort of that
arbitrarily ordered vector, which realises exactly the
comparator-consistent outputs. -/

structure ParsedDocument where
  url : String
  title : String
  text_content : String
  term_positions : List (String × List Nat)
deriving Repr, DecidableEq

/-- Forward-index record (metadata extraction — category, price, brand —
is not modelled: price goes through floating-point std::stod and none of
it is read by the embedded operations). -/
structure Document where
  doc_id : Nat
  url : String
  title : String
  text_content : String
  term_positions : List (String × List Nat)
deriving Repr, DecidableEq

structure Posting where
  doc_id : Nat
  positions : List Nat
  tf : ℚ
deriving Repr, DecidableEq

structure SearchResult where
  doc_id : Nat
  url : String
  title : String
  snippet : String
  score : ℚ
deriving Repr, DecidableEq

structure IndexerState where
  inverted_index : List (String × List Posting)
  forward_index : List (Nat × Document)
  doc_lengths : List (Nat × Nat)
  next_doc_id : Nat
  current_segment_size : Nat
  segment_count : Nat
  total_documents : Nat
  k1 : ℚ
  b : ℚ
  avg_doc_length : ℚ
  max_docs_per_segment : Nat
deriving Repr, DecidableEq

/-- Fresh Indexer: next_doc_id_ starts at 1; k1 = 1.5, b = 0.75;
max_docs_per_segment_ = 100000 (indexer.h defaults). -/
def initIndexer : IndexerState :=
  { inverted_index := [], forward_index := [], doc_lengths := [],
    next_doc_id := 1, current_segment_size := 0, segment_count := 0,
    total_documents := 0, k1 := 3 / 2, b := 3 / 4, avg_doc_length := 0,
    max_docs_per_segment := 100000 }

/-- inverted_index_[term].push_back(posting). -/
def appendPosting (inv : List (String × List Posting)) (term : String) (p : Posting) :
    List (String × List Posting) :=
  appendAssoc inv term p

/-- Posting loop of Indexer::index_document (lines 46-57): walk
term_positions, skip empty terms, append one posting (tf = number of
positions) per term and accumulate the document length. -/
def indexTermsLoop (doc_id : Nat) (tps : List (String × List Nat))
    (inv : List (String × List Posting)) (len : Nat) :
    List (String × List Posting) × Nat :=
  tps.foldl
    (fun acc tp =>
      if tp.1 = "" then acc
      else
        (appendPosting acc.1 tp.1
          { doc_id := doc_id, positions := tp.2, tf := (tp.2.length : ℚ) },
         acc.2 + tp.2.length))
    (inv, len)

/-- Keyed store m[k] = v on an unordered_map with Nat keys. -/
def setAssoc {β : Type} : List (Nat × β) → Nat → β → List (Nat × β)
  | [], k, v => [(k, v)]
  | (k0, v0) :: rest, k, v =>
    if k0 == k then (k, v) :: rest else (k0, v0) :: setAssoc rest k v

/-- Lookup in an unordered_map with Nat keys (first occurrence). -/
def lookupAssoc {β : Type} (m : List (Nat × β)) (k : Nat) : Option β :=
  (m.find? (fun e => e.1 == k)).map Prod.snd

/-- Indexer::flush_segment: a no-op on an empty segment; otherwise the
(placeholder) disk write, segment_count_++ and a segment-size reset.
The in-memory index is not touched. -/
def flush_segment (st : IndexerState) : IndexerState :=
  if st.current_segment_size = 0 then st
  else { st with segment_count := st.segment_count + 1, current_segment_size := 0 }

/-- Indexer::index_document: allocate doc_id = next_doc_id_++, build the
forward record, append one posting per non-empty term of term_positions
(tf = number of positions) while accumulating the document length,
record the length, bump the counters, update avg_doc_length_
incrementally, and flush when the segment is full. -/
def index_document (st : IndexerState) (pdoc : ParsedDocument) : IndexerState :=
  let doc_id := st.next_doc_id
  let doc : Document :=
    { doc_id := doc_id, url := pdoc.url, title := pdoc.title,
      text_content := pdoc.text_content, term_positions := pdoc.term_positions }
  let step := indexTermsLoop doc_id pdoc.term_positions st.inverted_index 0
  let doc_length := step.2
  let total := st.total_documents + 1
  let st1 : IndexerState :=
    { st with
      inverted_index := step.1,
      forward_index := setAssoc st.forward_index doc_id doc,
      doc_lengths := setAssoc st.doc_lengths doc_id doc_length,
      next_doc_id := doc_id + 1,
      total_documents := total,
      current_segment_size := st.current_segment_size + 1,
      avg_doc_length :=
        (st.avg_doc_length * ((total : ℚ) - 1) + (doc_length : ℚ)) / (total : ℚ) }
  if st1.current_segment_size ≥ st1.max_docs_per_segment then flush_segment st1
  else st1

/-- Indexer::calculate_bm25: tf over the saturated, length-normalized
denominator with k1 and b; 0 when the document length is unknown.
The term argument is unused, as in the source. -/
def calculate_bm25 (st : IndexerState) (term : String) (doc_id : Nat)
    (positions : List Nat) : ℚ :=
  let tf : ℚ := (positions.length : ℚ)
  match lookupAssoc st.doc_lengths doc_id with
  | none => 0
  | some len =>
    let normalized_length := (len : ℚ) / st.avg_doc_length
    let numerator := tf * (st.k1 + 1)
    let denominator := tf + st.k1 * (1 - st.b + st.b * normalized_length)
    numerator / denominator

/-- Query tokenization of Indexer::search: istringstream extraction
(split on isspace) and per-character ::tolower. -/
def query_tokenize (query : String) : List String :=
  (splitRuns (fun c => !isSpaceChar c) query.toList).map fun l => ⟨l.map cppTolower⟩

/-- doc_scores[doc_id] += delta on the unordered_map accumulator. -/
def bumpScore : List (Nat × ℚ) → Nat → ℚ → List (Nat × ℚ)
  | [], doc_id, delta => [(doc_id, delta)]
  | (k, v) :: rest, doc_id, delta =>
    if k == doc_id then (k, v + delta) :: rest
    else (k, v) :: bumpScore rest doc_id delta

/-- Scoring loop of Indexer::search: for each query term with a posting
list, idf = log(total_documents / list length), and every posting adds
bm25 * idf to its document's accumulated score. -/
def accumulate_scores (st : IndexerState) (logFn : ℚ → ℚ)
    (query_terms : List String) : List (Nat × ℚ) :=
  query_terms.foldl
    (fun scores qt =>
      match lookupTerm st.inverted_index qt with
      | none => scores
      | some postings =>
        let idf := logFn ((st.total_documents : ℚ) / (postings.length : ℚ))
        postings.foldl
          (fun sc posting =>
            bumpScore sc posting.doc_id
              (calculate_bm25 st qt posting.doc_id posting.positions * idf))
          scores)
    []

/-- The std::sort comparator of Indexer::search, a.second > b.second, as
the non-strict order it sorts by: a may precede b iff b.score ≤ a.score. -/
def scoreLe (a b : Nat × ℚ) : Bool :=
  decide (b.2 ≤ a.2)

/-- Stable insertion into a list sorted by the comparator le. -/
def insertSorted {α : Type} (le : α → α → Bool) (a : α) : List α → List α
  | [] => [a]
  | b :: bs => if le a b then a :: b :: bs else b :: insertSorted le a bs

/-- Stable insertion sort by the comparator le: the model of std::sort
(applied to the arbitrarily ordered vector, it reaches exactly the
comparator-consistent orders the unstable std::sort may produce). -/
def sortByComparator {α : Type} (le : α → α → Bool) : List α → List α
  | [] => []
  | a :: as => insertSorted le a (sortByComparator le as)

/-- Snippet of Indexer::search: the first 200 characters, with a
trailing ellipsis when the text is longer. -/
def snippetOf (text : String) : String :=
  if text.toList.length > 200 then (⟨text.toList.take 200⟩ : String) ++ "..."
  else ⟨text.toList.take 200⟩

/-- Result-building loop of Indexer::search: walk the first topk sorted
entries, skip doc_ids missing from the forward index, and build
SearchResult records carrying the sorted scores. -/
def build_results (st : IndexerState) (sorted : List (Nat × ℚ)) (topk : Nat) :
    List SearchResult :=
  (sorted.take topk).filterMap fun sd =>
    match lookupAssoc st.forward_index sd.1 with
    | none => none
    | some doc =>
      some { doc_id := sd.1, url := doc.url, title := doc.title,
             snippet := snippetOf doc.text_content, score := sd.2 }

/-- Indexer::search: tokenize the query, accumulate scores, copy the
accumulator into a vector (iter — the unspecified unordered_map
iteration order), sort by descending score, take topk and build the
results. logFn stands for std::log. -/
def search (st : IndexerState) (logFn : ℚ → ℚ)
    (iter : List (Nat × ℚ) → List (Nat × ℚ)) (query : String) (topk : Nat) :
    List SearchResult :=
  let query_terms := query_tokenize query
  let doc_scores := accumulate_scores st logFn query_terms
  let scored_docs := sortByComparator scoreLe (iter doc_scores)
  build_results st scored_docs topk

/-! ### Abbreviations for invariants and concrete states used below -/

/-- Every task held in the frontier queue has a valid URL. -/
def ValidQueue (st : SchedulerState) : Prop :=
  ∀ task ∈ st.task_queue, is_valid task.url = true

/-- Invariant of the indexer state: forward-index doc ids strictly
increasing and below next_doc_id, next_doc_id one past the number of
admitted documents, and every posting list strictly increasing in
doc_id (hence duplicate-free) and below next_doc_id. -/
def IndexInv (st : IndexerState) : Prop :=
  List.Chain' (· < ·) (st.forward_index.map Prod.fst) ∧
  (∀ e ∈ st.forward_index, e.1 < st.next_doc_id) ∧
  st.next_doc_id = st.forward_index.length + 1 ∧
  ∀ e ∈ st.inverted_index,
    List.Chain' (· < ·) (e.2.map Posting.doc_id) ∧
    ∀ p ∈ e.2, p.doc_id < st.next_doc_id

/-- A scheduler in its configured initial state: empty queue and backoff
map, max_retries 3 and retry_backoff_ms 1000 (the scheduler.h defaults). -/
def exSched : SchedulerState :=
  { task_queue := [], domain_backoff := [], total_scheduled := 0,
    total_completed := 0, total_failed := 0, max_retries := 3,
    retry_backoff_ms := 1000 }

/-- A ready task for host h.test. -/
def exTaskB : CrawlTask :=
  { url := "https://h.test/b", priority := 0, retry_count := 0, next_retry_time := 0 }

/-- A scheduler holding one ready task for host h.test. -/
def exSchedB : SchedulerState :=
  { exSched with task_queue := [exTaskB] }

/-- A scheduler holding the h.test task with an expired backoff entry
for h.test (recorded instant 5). -/
def exSchedC : SchedulerState :=
  { exSched with task_queue := [exTaskB], domain_backoff := [("h.test", 5)] }

/-- A one-term document: the token cat at position 0. -/
def exDoc : ParsedDocument :=
  { url := "https://a.test/", title := "t", text_content := "cat",
    term_positions := [("cat", [0])] }

/-- The index after admitting exDoc twice (doc ids 1 and 2): both
documents carry the term cat with identical tf and length, so their
BM25 scores for the query cat are exactly equal. -/
def exIdx : IndexerState :=
  index_document (index_document initIndexer exDoc) exDoc

/-- A deduplicator whose remote tier is up (context installed). -/
def exDedupUp : DedupState :=
  { local_url_set := [], local_content_set := [], use_local_fallback := false,
    redis_available := true, has_redis_context := true,
    url_duplicates := 0, content_duplicates := 0, redis_hits := 0, redis_misses := 0 }

/-- A deduplicator in the local-fallback configuration of main.cpp:
remote tier unavailable, local fallback enabled. -/
def exDedupLocal : DedupState :=
  { local_url_set := [], local_content_set := [], use_local_fallback := true,
    redis_available := false, has_redis_context := false,
    url_duplicates := 0, content_duplicates := 0, redis_hits := 0, redis_misses := 0 }

/-! ## Theorems

Helper lemmas first, then one theorem per claim (with the witness or
counterexample it requires). -/

/-- Storing a backoff instant makes it the value looked up for that key. -/
theorem lookupBackoff_setBackoff (m : List (String × Nat)) (d : String) (t : Nat) :
    lookupBackoff (setBackoff m d t) d = some t := by
  induction m with
  | nil => simp [setBackoff, lookupBackoff]
  | cons kv rest ih =>
    obtain ⟨k, v⟩ := kv
    by_cases hk : k == d
    · simp [setBackoff, hk, lookupBackoff]
    · simp only [setBackoff, hk, Bool.false_eq_true, if_false]
      simpa [lookupBackoff, List.find?_cons_of_neg, hk] using ih

/-- Popping the heap returns an element of the queue, and leaves only
elements of the queue behind. -/
theorem heapPop_mem {q rest : List CrawlTask} {t : CrawlTask}
    (h : heapPop q = some (t, rest)) : t ∈ q ∧ ∀ x ∈ rest, x ∈ q := by
  induction q generalizing t rest with
  | nil => simp [heapPop] at h
  | cons a as ih =>
    simp only [heapPop] at h
    cases hp : heapPop as with
    | none =>
      rw [hp] at h
      obtain ⟨rfl, rfl⟩ : a = t ∧ [] = rest := by simpa using h
      exact ⟨List.mem_cons_self a as, by simp⟩
    | some pr =>
      obtain ⟨u, r⟩ := pr
      rw [hp] at h
      dsimp only at h
      by_cases hu : u.priority > a.priority
      · rw [if_pos hu] at h
        obtain ⟨rfl, rfl⟩ : u = t ∧ a :: r = rest := by simpa using h
        obtain ⟨hu1, hu2⟩ := ih hp
        refine ⟨List.mem_cons_of_mem a hu1, ?_⟩
        intro x hx
        rcases List.mem_cons.mp hx with rfl | hx
        · exact List.mem_cons_self x as
        · exact List.mem_cons_of_mem a (hu2 x hx)
      · rw [if_neg hu] at h
        obtain ⟨rfl, rfl⟩ : a = t ∧ as = rest := by simpa using h
        exact ⟨List.mem_cons_self a as, fun x hx => List.mem_cons_of_mem a hx⟩

/-- C1: the retry path of Scheduler::mark_failed contradicts the claim.
At the concrete failing input — a task for https://a.test/x whose
previous retry_count was 2, failing again at now = 0 with
retry_backoff_ms = 1000 — the claim requires the re-queued task to carry
retryCount 3 and readyAt = 0 + 1000 * 2 ^ 2; the code re-queues with
retry_count hard-coded to 1 (source comment: Simplified) and
next_retry_time = 0 + 1000, and it leaves total_failed untouched, so a
task whose retry count exceeded max_retries is not dropped here. -/
theorem c1_mark_failed_hardcodes_retry_count :
    (mark_failed exSched "https://a.test/x" true 0).task_queue =
      [{ url := "https://a.test/x", priority := 0, retry_count := 1,
         next_retry_time := 0 + 1000 }] ∧
    (mark_failed exSched "https://a.test/x" true 0).total_failed = 0 ∧
    ¬((1 : Nat) = 2 + 1 ∧ (0 + 1000 : Nat) = 0 + 1000 * 2 ^ (3 - 1)) := by
  refine ⟨?_, ?_, ?_⟩ <;> decide

/-- C2, counterexample: completing a fetch does not install a politeness
window. With one ready task for host h.test in the queue, calling
mark_completed for a URL of host h.test at now = 0 leaves the backoff
map empty, and get_next_task immediately (still at now = 0, i.e. earlier
than now + politenessDelay) returns the other h.test task. -/
theorem c2_counterexample :
    (mark_completed exSchedB "https://h.test/a").domain_backoff = [] ∧
    (get_next_task (mark_completed exSchedB "https://h.test/a") 0).1 =
      some { url := "https://h.test/b", priority := 0, retry_count := 0,
             next_retry_time := 0 } := by
  constructor <;> decide

/-- C2, amended: mark_completed does not touch the backoff map (or the
queue); the DomainBackoff entry now + 1000 ms (the politeness delay is
the hard-coded 1 second, not configurable) is installed by the retry
path of mark_failed for the host of the failed URL; and get_next_task
never returns a task whose host has a backoff entry still in the
future. -/
theorem c2_amended_backoff_on_failure (st : SchedulerState) (url : String) (now : Nat) :
    (mark_completed st url).domain_backoff = st.domain_backoff ∧
    (mark_completed st url).task_queue = st.task_queue ∧
    lookupBackoff (mark_failed st url true now).domain_backoff (extract_domain url) =
      some (now + 1000) ∧
    (∀ task st2, get_next_task st now = (some task, st2) →
      ∀ t, lookupBackoff st.domain_backoff (extract_domain task.url) = some t →
        t ≤ now) := by
  refine ⟨rfl, rfl, ?_, ?_⟩
  · simp only [mark_failed, Bool.not_true, Bool.false_eq_true, if_false,
      update_domain_backoff]
    exact lookupBackoff_setBackoff _ _ _
  · intro task st2 h t ht
    simp only [get_next_task] at h
    cases hp : heapPop st.task_queue with
    | none => rw [hp] at h; simp at h
    | some pr =>
      obtain ⟨task0, rest⟩ := pr
      rw [hp] at h
      dsimp only at h
      by_cases h1 : now < task0.next_retry_time
      · rw [if_pos h1] at h; simp at h
      · rw [if_neg h1] at h
        by_cases h2 : can_fetch_domain st (extract_domain task0.url) now
        · rw [h2] at h
          simp only [Bool.not_true, Bool.false_eq_true, if_false] at h
          obtain ⟨rfl, rfl⟩ : task0 = task ∧ _ = st2 := by simpa using h
          simp only [can_fetch_domain, ht, ge_iff_le, decide_eq_true_eq] at h2
          exact h2
        · rw [Bool.not_eq_true] at h2
          rw [h2] at h
          simp at h

/-- C2, amended, witness: in the concrete one-task scheduler, after
mark_failed of a URL of host a.test at instant 5, the backoff entry of
a.test reads 5 + 1000; mark_completed leaves the backoff map alone; and
the concrete get_next_task call at instant 10 that hands out the h.test
task certifies the h.test backoff entry (5) was not in the future. -/
theorem c2_amended_backoff_on_failure_witness :
    lookupBackoff (mark_failed exSched "https://a.test/x" true 5).domain_backoff
      (extract_domain "https://a.test/x") = some (5 + 1000) ∧
    (mark_completed exSchedB "https://h.test/a").domain_backoff =
      exSchedB.domain_backoff ∧
    5 ≤ 10 :=
  ⟨(c2_amended_backoff_on_failure exSched "https://a.test/x" 5).2.2.1,
   (c2_amended_backoff_on_failure exSchedB "https://h.test/a" 0).1,
   (c2_amended_backoff_on_failure exSchedC "https://h.test/a" 10).2.2.2
     exTaskB { exSchedC with task_queue := [] } (by decide) 5 (by decide)⟩

/-- C3, counterexample: canonicalize does not lowercase scheme or host,
does not drop a default port and does not sort the query — it only
strips the fragment, so on this input it differs from the normal form
the claim prescribes. -/
theorem c3_counterexample :
    canonicalize "HTTPS://Example.com:443/p?b=2&a=1#frag" ≠
      "https://example.com/p?a=1&b=2" ∧
    canonicalize "HTTPS://Example.com:443/p?b=2&a=1#frag" =
      "HTTPS://Example.com:443/p?b=2&a=1" := by
  constructor <;> decide

/-- C3, amended: canonicalize(u) only strips the fragment — it returns
the prefix of u before the first '#' unchanged (no case folding, no
default-port removal, no query sorting). Consequently its result never
contains '#', it is idempotent, and it is the identity on
fragment-free URLs. -/
theorem c3_amended_fragment_stripping (u : String) :
    '#' ∉ (canonicalize u).toList ∧
    canonicalize (canonicalize u) = canonicalize u ∧
    ('#' ∉ u.toList → canonicalize u = u) := by
  refine ⟨?_, ?_, ?_⟩
  · intro hmem
    have := List.mem_takeWhile_imp (p := fun c => c != '#') hmem
    simp at this
  · show (⟨List.takeWhile (fun c => c != '#')
        (List.takeWhile (fun c => c != '#') u.toList)⟩ : String) =
      (⟨List.takeWhile (fun c => c != '#') u.toList⟩ : String)
    congr 1
    exact List.takeWhile_eq_self_iff.mpr
      fun x hx => List.mem_takeWhile_imp (p := fun c => c != '#') hx
  · intro hmem
    show (⟨List.takeWhile _ u.toList⟩ : String) = u
    have : List.takeWhile (fun c => c != '#') u.toList = u.toList :=
      List.takeWhile_eq_self_iff.mpr fun x hx => by
        simp only [bne_iff_ne, ne_eq, decide_eq_true_eq]
        rintro rfl
        exact hmem hx
    rw [this]
    rfl

/-- C3, amended, witness: a fragment-free URL is returned unchanged. -/
theorem c3_amended_fragment_stripping_witness :
    canonicalize "https://a.test/x?q=1" = "https://a.test/x?q=1" :=
  (c3_amended_fragment_stripping "https://a.test/x?q=1").2.2 (by decide)

/-- Tasks surviving or returned by get_next_task all come from the
original queue (the call pops one task and either hands it out or
pushes it back; it never invents a task). -/
theorem get_next_task_mem (st : SchedulerState) (now : Nat) :
    (∀ x ∈ (get_next_task st now).2.task_queue, x ∈ st.task_queue) ∧
    (∀ task, (get_next_task st now).1 = some task → task ∈ st.task_queue) := by
  cases hp : heapPop st.task_queue with
  | none => simp [get_next_task, hp]
  | some pr =>
    obtain ⟨task0, rest⟩ := pr
    have hm := heapPop_mem hp
    simp only [get_next_task, hp]
    by_cases h1 : now < task0.next_retry_time
    · rw [if_pos h1]
      refine ⟨?_, by simp⟩
      intro x hx
      rcases List.mem_append.mp hx with h2 | h2
      · exact hm.2 x h2
      · simp only [List.mem_singleton] at h2
        subst h2
        exact hm.1
    · rw [if_neg h1]
      by_cases h2 : can_fetch_domain st (extract_domain task0.url) now
      · simp only [h2, Bool.not_true, Bool.false_eq_true, if_false]
        refine ⟨fun x hx => hm.2 x hx, fun task ht => ?_⟩
        obtain rfl : task0 = task := by simpa using ht
        exact hm.1
      · rw [Bool.not_eq_true] at h2
        simp only [h2, Bool.not_false, if_true]
        refine ⟨?_, by simp⟩
        intro x hx
        rcases List.mem_append.mp hx with h3 | h3
        · exact hm.2 x h3
        · simp only [List.mem_singleton] at h3
          subst h3
          exact hm.1

/-- C9: add_url returns false and leaves the scheduler untouched when
the canonicalized URL fails is_valid; and every scheduler operation
preserves the invariant that all queued tasks carry valid URLs —
add_url only enqueues validated URLs, get_next_task only recirculates
queued tasks (so every task it returns is valid), mark_completed does
not touch the queue, and mark_failed re-enqueues the URL it is given,
which in the orchestrator is always the URL of a task previously
returned by get_next_task, hence valid. -/
theorem c9_frontier_urls_valid (st : SchedulerState) (hq : ValidQueue st) :
    (∀ u p now, is_valid (canonicalize u) = false → add_url st u p now = (false, st)) ∧
    (∀ u p now, ValidQueue (add_url st u p now).2) ∧
    (∀ now, ValidQueue (get_next_task st now).2 ∧
      ∀ task, (get_next_task st now).1 = some task → is_valid task.url = true) ∧
    (∀ u, ValidQueue (mark_completed st u)) ∧
    (∀ u w now, is_valid u = true → ValidQueue (mark_failed st u w now)) := by
  refine ⟨?_, ?_, ?_, ?_, ?_⟩
  · intro u p now h
    simp [add_url, h]
  · intro u p now task ht
    by_cases hv : is_valid (canonicalize u)
    · simp only [add_url, hv, Bool.not_true, Bool.false_eq_true, if_false] at ht
      rcases List.mem_append.mp ht with h1 | h1
      · exact hq task h1
      · simp only [List.mem_singleton] at h1
        subst h1
        exact hv
    · rw [Bool.not_eq_true] at hv
      simp only [add_url, hv, Bool.not_false, if_true] at ht
      exact hq task ht
  · intro now
    exact ⟨fun task ht => hq task ((get_next_task_mem st now).1 task ht),
      fun task h => hq task ((get_next_task_mem st now).2 task h)⟩
  · intro u task ht
    exact hq task ht
  · intro u w now hvu task ht
    by_cases hw : w
    · subst hw
      simp only [mark_failed, Bool.not_true, Bool.false_eq_true, if_false,
        update_domain_backoff] at ht
      rcases List.mem_append.mp ht with h1 | h1
      · exact hq task h1
      · simp only [List.mem_singleton] at h1
        subst h1
        exact hvu
    · rw [Bool.not_eq_true] at hw
      subst hw
      simp only [mark_failed, Bool.not_false, if_true] at ht
      exact hq task ht

/-- C9, witness: the empty scheduler satisfies the invariant; an
invalid seed is rejected without touching the state, and a retry
re-queue of a valid URL keeps the queue valid. -/
theorem c9_frontier_urls_valid_witness :
    add_url exSched "notaurl" 0 0 = (false, exSched) ∧
    ValidQueue (mark_failed exSched "https://a.test/" true 0) := by
  have hq : ValidQueue exSched := fun task ht => absurd ht (List.not_mem_nil task)
  exact ⟨(c9_frontier_urls_valid exSched hq).1 "notaurl" 0 0 (by decide),
    (c9_frontier_urls_valid exSched hq).2.2.2.2 "https://a.test/" true 0 (by decide)⟩

/-- Inserting a key into an unordered_set makes it a member. -/
theorem mem_insertSet_self (s : List Nat) (h : Nat) : h ∈ insertSet s h := by
  unfold insertSet
  by_cases hm : h ∈ s
  · simp [hm]
  · simp [hm]

/-- C10: with the remote tier unavailable and the local fallback in
use, marking any content-hash string and then querying it answers true:
both operations derive the same 64-bit key via content_key (stoull when
the string parses as a decimal u64, the string hash otherwise), so the
inserted key is exactly the key looked up — for every string, numeric
or not, and regardless of the remote oracles. -/
theorem c10_content_mark_then_seen (st : DedupState) (s d : String)
    (rm : Option Unit) (rc : Option Bool) (hav : st.redis_available = false)
    (hfb : st.use_local_fallback = true) :
    (is_content_seen (mark_content_seen st rm s d) rc s).1 = true := by
  have hmark : mark_content_seen st rm s d =
      { st with local_content_set := insertSet st.local_content_set (content_key s) } := by
    simp [mark_content_seen, hav]
  rw [hmark]
  simp [is_content_seen, hav, local_content_lookup, hfb, mem_insertSet_self]

/-- C10, witness: in the local-fallback deduplicator of main.cpp, the
non-numeric hash string abc round-trips. -/
theorem c10_content_mark_then_seen_witness :
    (is_content_seen (mark_content_seen exDedupLocal none "abc" "1") (some true) "abc").1 =
      true :=
  c10_content_mark_then_seen exDedupLocal "abc" "1" none (some true) rfl rfl

/-- C4: degradation and its one-way persistence. First block: when the
remote tier is up (context installed), a null remote reply — a remote
I/O error — inside any of the four operations clears redis_available,
and that very call already answers from the local set, so the error is
absorbed, not surfaced. Second block: once redis_available is false,
all four operations are oblivious to the remote oracle — the queries
equal plain local-set lookups and the marks equal plain local-set
inserts — and redis_available stays false, so the remote tier is never
attempted again. Last: only init_redis (re-initialization) turns the
remote tier back on. -/
theorem c4_degraded_remote_dedup (st : DedupState) (u s d : String)
    (r : Option Bool) (rm : Option Unit) :
    (st.redis_available = true → st.has_redis_context = true →
      (is_url_seen st none u).2.redis_available = false ∧
      (is_content_seen st none s).2.redis_available = false ∧
      (mark_url_seen st none u).redis_available = false ∧
      (mark_content_seen st none s d).redis_available = false ∧
      ((is_url_seen st none u).1 = true ↔
        hash_url (canonicalize u) ∈ st.local_url_set) ∧
      ((is_content_seen st none s).1 = true ↔
        content_key s ∈ st.local_content_set)) ∧
    (st.redis_available = false →
      is_url_seen st r u = local_url_lookup st (hash_url (canonicalize u)) ∧
      is_content_seen st r s = local_content_lookup st (content_key s) ∧
      mark_url_seen st rm u =
        { st with local_url_set :=
            insertSet st.local_url_set (hash_url (canonicalize u)) } ∧
      mark_content_seen st rm s d =
        { st with local_content_set :=
            insertSet st.local_content_set (content_key s) } ∧
      (local_url_lookup st (hash_url (canonicalize u))).2.redis_available = false ∧
      (local_content_lookup st (content_key s)).2.redis_available = false) ∧
    (init_redis st true).2.redis_available = true := by
  refine ⟨?_, ?_, ?_⟩
  · intro hav hctx
    refine ⟨?_, ?_, ?_, ?_, ?_, ?_⟩
    · simp only [is_url_seen, hav, if_true, check_redis_url, hctx, Bool.not_true,
        Bool.false_eq_true, if_false, local_url_lookup, Bool.not_false, Bool.or_true]
      split <;> rfl
    · simp only [is_content_seen, hav, if_true, check_redis_content, hctx,
        Bool.not_true, Bool.false_eq_true, if_false, local_content_lookup,
        Bool.not_false, Bool.or_true]
      split <;> rfl
    · simp [mark_url_seen, hav, mark_redis_url, hctx]
    · simp [mark_content_seen, hav, mark_redis_content, hctx]
    · simp only [is_url_seen, hav, if_true, check_redis_url, hctx, Bool.not_true,
        Bool.false_eq_true, if_false, local_url_lookup, Bool.not_false, Bool.or_true]
      split <;> rename_i hmem <;> simp [hmem]
    · simp only [is_content_seen, hav, if_true, check_redis_content, hctx,
        Bool.not_true, Bool.false_eq_true, if_false, local_content_lookup,
        Bool.not_false, Bool.or_true]
      split <;> rename_i hmem <;> simp [hmem]
  · intro hav
    refine ⟨?_, ?_, ?_, ?_, ?_, ?_⟩
    · simp [is_url_seen, hav]
    · simp [is_content_seen, hav]
    · simp [mark_url_seen, hav]
    · simp [mark_content_seen, hav]
    · simp only [local_url_lookup]
      split_ifs <;> simp [hav]
    · simp only [local_content_lookup]
      split_ifs <;> simp [hav]
  · simp [init_redis]

/-- C4, witness: a remote error degrades the live deduplicator of
exDedupUp, and the degraded local-fallback deduplicator answers a
content query by the local lookup alone even when the remote oracle
would answer true. -/
theorem c4_degraded_remote_dedup_witness :
    (is_url_seen exDedupUp none "https://a.test/").2.redis_available = false ∧
    is_content_seen exDedupLocal (some true) "abc" =
      local_content_lookup exDedupLocal (content_key "abc") :=
  ⟨((c4_degraded_remote_dedup exDedupUp "https://a.test/" "abc" "1" none none).1
      rfl rfl).1,
   ((c4_degraded_remote_dedup exDedupLocal "https://a.test/" "abc" "1"
      (some true) none).2.1 rfl).2.1⟩

/-- On the chain world ending at n, a fetch starting j with k hops left
and enough redirect budget (rc + k within max_redirects) succeeds with
the final 200 body and the full redirect chain j+1, ..., n. -/
theorem fetch_impl_chain_success (n maxR : Nat) :
    ∀ k j rc, j + k = n → rc + k ≤ maxR →
      fetch_impl (chainWorld n) maxR j rc =
        { success := true, http_status := 200, content := "ok",
          redirects := List.range' (j + 1) k, error_message := "" } := by
  intro k
  induction k with
  | zero =>
    intro j rc hj hrc
    have hje : j = n := by omega
    subst hje
    rw [fetch_impl, dif_neg (by omega)]
    have hw : chainWorld j j = .response 200 "ok" none := by simp [chainWorld]
    rw [hw]
    dsimp only
    rw [if_pos (by omega)]
    simp [List.range']
  | succ k ih =>
    intro j rc hj hrc
    have hjn : j < n := by omega
    rw [fetch_impl, dif_neg (by omega)]
    simp only [chainWorld, if_pos hjn]
    rw [if_neg (by omega), if_pos (by omega)]
    rw [ih (j + 1) (rc + 1) (by omega) (by omega)]
    simp [List.range'_succ]

/-- On the chain world ending at n, a fetch starting j with k hops left
but not enough redirect budget (max_redirects below rc + k) fails with
the too-many-redirects error. -/
theorem fetch_impl_chain_too_many (n maxR : Nat) :
    ∀ k j rc, j + k = n → maxR < rc + k →
      (fetch_impl (chainWorld n) maxR j rc).success = false ∧
      (fetch_impl (chainWorld n) maxR j rc).error_message = "Too many redirects" := by
  intro k
  induction k with
  | zero =>
    intro j rc hj hrc
    rw [fetch_impl, dif_pos (by omega)]
    exact ⟨rfl, rfl⟩
  | succ k ih =>
    intro j rc hj hrc
    by_cases hb : rc > maxR
    · rw [fetch_impl, dif_pos hb]
      exact ⟨rfl, rfl⟩
    · have hjn : j < n := by omega
      rw [fetch_impl, dif_neg hb]
      simp only [chainWorld, if_pos hjn]
      rw [if_neg (by omega), if_pos (by omega)]
      have h := ih (j + 1) (rc + 1) (by omega) (by omega)
      exact ⟨h.1, h.2⟩

/-- C5: for every configured max_redirects, a redirect chain requiring
exactly max_redirects hops before the final 2xx fetches successfully
(success = true, status 200, max_redirects entries in the redirect
chain), while a chain requiring max_redirects + 1 hops yields a failed
FetchResult carrying the Too many redirects error. The failure is the
returned value of the (total) fetch_impl — nothing is thrown. -/
theorem c5_redirect_chain_bound (maxR : Nat) :
    (fetch_impl (chainWorld maxR) maxR 0 0).success = true ∧
    (fetch_impl (chainWorld maxR) maxR 0 0).http_status = 200 ∧
    (fetch_impl (chainWorld maxR) maxR 0 0).redirects.length = maxR ∧
    (fetch_impl (chainWorld (maxR + 1)) maxR 0 0).success = false ∧
    (fetch_impl (chainWorld (maxR + 1)) maxR 0 0).error_message =
      "Too many redirects" := by
  have hs := fetch_impl_chain_success maxR maxR maxR 0 0 (by omega) (by omega)
  have hf := fetch_impl_chain_too_many (maxR + 1) maxR (maxR + 1) 0 0
    (by omega) (by omega)
  rw [hs]
  exact ⟨rfl, rfl, by simp [List.length_range'], hf.1, hf.2⟩

/-- Entries of an unordered_map after a push_back under key k: an
untouched entry, the extended entry of k, or a fresh entry of k. -/
theorem mem_appendAssoc {β : Type} {m : List (String × List β)} {k : String} {v : β}
    {e : String × List β} (he : e ∈ appendAssoc m k v) :
    e ∈ m ∨ (∃ vs, (k, vs) ∈ m ∧ e = (k, vs ++ [v])) ∨ e = (k, [v]) := by
  induction m with
  | nil =>
    simp only [appendAssoc, List.mem_singleton] at he
    exact Or.inr (Or.inr he)
  | cons kv rest ih =>
    obtain ⟨k0, vs0⟩ := kv
    simp only [appendAssoc] at he
    by_cases hk : k0 == k
    · rw [if_pos hk] at he
      obtain rfl : k0 = k := by simpa using hk
      rcases List.mem_cons.mp he with rfl | h1
      · exact Or.inr (Or.inl ⟨vs0, List.mem_cons_self _ _, rfl⟩)
      · exact Or.inl (List.mem_cons_of_mem _ h1)
    · rw [if_neg hk] at he
      rcases List.mem_cons.mp he with rfl | h1
      · exact Or.inl (List.mem_cons_self _ _)
      · rcases ih h1 with h2 | h2 | h2
        · exact Or.inl (List.mem_cons_of_mem _ h2)
        · obtain ⟨vs, hvs, he2⟩ := h2
          exact Or.inr (Or.inl ⟨vs, List.mem_cons_of_mem _ hvs, he2⟩)
        · exact Or.inr (Or.inr h2)

/-- Invariant of the position-building loop: starting from a map whose
position lists are strictly increasing and below the next raw index lo,
folding the indexed tokens lo, lo+1, ... keeps every list strictly
increasing and below the index after the last token. -/
theorem build_positions_inv (toks : List String) :
    ∀ (lo : Nat) (tp0 : List (String × List Nat)),
      (∀ e ∈ tp0, List.Chain' (· < ·) e.2 ∧ ∀ p ∈ e.2, p < lo) →
      ∀ e ∈ (List.enumFrom lo toks).foldl
          (fun tp p =>
            let normalized := normalize_token p.2
            if normalized = "" then tp else addPosition tp normalized p.1)
          tp0,
        List.Chain' (· < ·) e.2 ∧ ∀ p ∈ e.2, p < lo + toks.length := by
  induction toks with
  | nil =>
    intro lo tp0 h0 e he
    simp only [List.enumFrom, List.foldl_nil] at he
    simpa using h0 e he
  | cons tok rest ih =>
    intro lo tp0 h0 e he
    simp only [List.enumFrom, List.foldl_cons] at he
    have hstep : ∀ e2 ∈ (let normalized := normalize_token tok;
        if normalized = "" then tp0 else addPosition tp0 normalized lo),
        List.Chain' (· < ·) e2.2 ∧ ∀ p ∈ e2.2, p < lo + 1 := by
      intro e2 he2
      dsimp only at he2
      by_cases hn : normalize_token tok = ""
      · rw [if_pos hn] at he2
        obtain ⟨h1, h2⟩ := h0 e2 he2
        exact ⟨h1, fun p hp => Nat.lt_succ_of_lt (h2 p hp)⟩
      · rw [if_neg hn] at he2
        rcases mem_appendAssoc (by simpa [addPosition] using he2) with h1 | h1 | h1
        · obtain ⟨hc, hb⟩ := h0 e2 h1
          exact ⟨hc, fun p hp => Nat.lt_succ_of_lt (hb p hp)⟩
        · obtain ⟨vs, hvs, rfl⟩ := h1
          obtain ⟨hc, hb⟩ := h0 _ hvs
          constructor
          · rw [List.chain'_append]
            refine ⟨hc, List.chain'_singleton _, ?_⟩
            intro x hx y hy
            obtain rfl : lo = y := by simpa using hy
            exact hb x (List.mem_of_mem_getLast? hx)
          · intro p hp
            rcases List.mem_append.mp hp with h2 | h2
            · exact Nat.lt_succ_of_lt (hb p h2)
            · obtain rfl : p = lo := by simpa using h2
              exact Nat.lt_succ_self p
        · subst h1
          exact ⟨List.chain'_singleton _, by simp⟩
    have hres := ih (lo + 1) _ hstep e he
    refine ⟨hres.1, fun p hp => ?_⟩
    have := hres.2 p hp
    simp only [List.length_cons]
    omega

/-- C8: in the term-position map the parser builds, every per-term
position list is strictly increasing, and every position is an index
into the raw token stream (below the raw token count) — positions are
assigned from the raw stream before normalization filtering, so kept
terms may leave gaps but never disorder. Stated for an arbitrary raw
token stream, which covers every document parse produces. -/
theorem c8_term_positions_strictly_increasing (tokens : List String) (t : String)
    (ps : List Nat) (h : lookupTerm (build_term_positions tokens) t = some ps) :
    List.Chain' (· < ·) ps ∧ ∀ p ∈ ps, p < tokens.length := by
  obtain ⟨e, hfind, hsnd⟩ := Option.map_eq_some'.mp h
  have hmem := List.mem_of_find?_eq_some hfind
  have hb := build_positions_inv tokens 0 [] (by simp) e
    (by simpa [build_term_positions, List.enum] using hmem)
  rw [hsnd] at hb
  exact ⟨hb.1, fun p hp => by simpa using hb.2 p hp⟩

/-- C8, witness: tokenizing a text where hello appears at raw positions
0 and 2, the per-term list of hello is [0, 2] — strictly increasing and
within the raw token count. -/
theorem c8_term_positions_strictly_increasing_witness :
    List.Chain' (· < ·) [0, 2] ∧
    ∀ p ∈ [0, 2], p < (tokenize "hello world hello").length :=
  c8_term_positions_strictly_increasing (tokenize "hello world hello") "hello"
    [0, 2] (by decide)

/-- Unfolding one step of the posting loop. -/
theorem indexTermsLoop_cons (doc_id : Nat) (t : String) (pos : List Nat)
    (rest : List (String × List Nat)) (inv : List (String × List Posting)) (len : Nat) :
    indexTermsLoop doc_id ((t, pos) :: rest) inv len =
      if t = "" then indexTermsLoop doc_id rest inv len
      else indexTermsLoop doc_id rest
        (appendPosting inv t
          { doc_id := doc_id, positions := pos, tf := (pos.length : ℚ) })
        (len + pos.length) := by
  simp only [indexTermsLoop, List.foldl_cons]
  split <;> rfl

/-- Storing under a key absent from an unordered_map appends the entry. -/
theorem setAssoc_fresh {β : Type} (m : List (Nat × β)) (k : Nat) (v : β)
    (hk : ∀ e ∈ m, e.1 ≠ k) : setAssoc m k v = m ++ [(k, v)] := by
  induction m with
  | nil => simp [setAssoc]
  | cons e rest ih =>
    obtain ⟨k0, v0⟩ := e
    have hne : k0 ≠ k := hk (k0, v0) (List.mem_cons_self _ _)
    simp only [setAssoc, List.cons_append]
    rw [if_neg (by simpa using hne)]
    rw [ih fun e2 he2 => hk e2 (List.mem_cons_of_mem _ he2)]

/-- Invariant of the posting loop: if the posting lists are strictly
increasing and their doc ids at most fresh — equal to fresh only for
terms the loop will not touch again — then with duplicate-free term
keys the loop keeps every posting list strictly increasing and bounded
by fresh. -/
theorem indexTermsLoop_inv (fresh : Nat) :
    ∀ (tps : List (String × List Nat)) (inv : List (String × List Posting)) (len : Nat),
      (tps.map Prod.fst).Nodup →
      (∀ e ∈ inv, List.Chain' (· < ·) (e.2.map Posting.doc_id) ∧
        ∀ p ∈ e.2, p.doc_id ≤ fresh ∧
          (p.doc_id = fresh → e.1 ∉ tps.map Prod.fst)) →
      ∀ e ∈ (indexTermsLoop fresh tps inv len).1,
        List.Chain' (· < ·) (e.2.map Posting.doc_id) ∧ ∀ p ∈ e.2, p.doc_id ≤ fresh := by
  intro tps
  induction tps with
  | nil =>
    intro inv len hnd hinv e he
    simp only [indexTermsLoop, List.foldl_nil] at he
    obtain ⟨hc, hb⟩ := hinv e he
    exact ⟨hc, fun p hp => (hb p hp).1⟩
  | cons tp rest ih =>
    obtain ⟨t, pos⟩ := tp
    intro inv len hnd hinv e he
    rw [indexTermsLoop_cons] at he
    simp only [List.map_cons, List.nodup_cons] at hnd
    by_cases ht : t = ""
    · rw [if_pos ht] at he
      refine ih inv len hnd.2 ?_ e he
      intro e2 he2
      obtain ⟨hc, hb⟩ := hinv e2 he2
      refine ⟨hc, fun p hp => ⟨(hb p hp).1, fun hfr hmem => ?_⟩⟩
      exact (hb p hp).2 hfr (by simpa using Or.inr hmem)
    · rw [if_neg ht] at he
      refine ih _ _ hnd.2 ?_ e he
      intro e2 he2
      rcases mem_appendAssoc (by simpa [appendPosting] using he2) with h1 | h1 | h1
      · obtain ⟨hc, hb⟩ := hinv e2 h1
        refine ⟨hc, fun p hp => ⟨(hb p hp).1, fun hfr hmem => ?_⟩⟩
        exact (hb p hp).2 hfr (by simpa using Or.inr hmem)
      · obtain ⟨vs, hvs, rfl⟩ := h1
        obtain ⟨hc, hb⟩ := hinv _ hvs
        have hstrict : ∀ p ∈ vs, p.doc_id < fresh := by
          intro p hp
          have h2 : p.doc_id ≠ fresh := fun he3 =>
            (hb p hp).2 he3 (by simp)
          have h3 := (hb p hp).1
          omega
        constructor
        · rw [List.map_append, List.chain'_append]
          refine ⟨hc, by simp, ?_⟩
          intro x hx y hy
          obtain rfl : fresh = y := by simpa using hy
          obtain ⟨p, hp, rfl⟩ := List.mem_map.mp (List.mem_of_mem_getLast? hx)
          exact hstrict p hp
        · intro p hp
          rcases List.mem_append.mp hp with h2 | h2
          · exact ⟨(hb p h2).1, fun hfr => absurd hfr (Nat.ne_of_lt (hstrict p h2))⟩
          · obtain rfl : p =
                { doc_id := fresh, positions := pos, tf := (pos.length : ℚ) } := by
              simpa using h2
            exact ⟨le_refl fresh, fun _ => hnd.1⟩
      · subst h1
        refine ⟨by simp, fun p hp => ?_⟩
        obtain rfl : p =
            { doc_id := fresh, positions := pos, tf := (pos.length : ℚ) } := by
          simpa using hp
        exact ⟨le_refl fresh, fun _ => hnd.1⟩

/-- The fields Indexer::index_document assigns, read back through the
trailing segment-flush branch (flush never touches them). -/
theorem index_document_fields (st : IndexerState) (d : ParsedDocument) :
    (index_document st d).inverted_index =
      (indexTermsLoop st.next_doc_id d.term_positions st.inverted_index 0).1 ∧
    (index_document st d).forward_index =
      setAssoc st.forward_index st.next_doc_id
        { doc_id := st.next_doc_id, url := d.url, title := d.title,
          text_content := d.text_content, term_positions := d.term_positions } ∧
    (index_document st d).next_doc_id = st.next_doc_id + 1 := by
  simp only [index_document]
  split
  · simp only [flush_segment]
    split <;> exact ⟨rfl, rfl, rfl⟩
  · exact ⟨rfl, rfl, rfl⟩

/-- One document admission preserves the index invariant, allocates
exactly the next doc id and appends it to the forward index. -/
theorem index_document_inv (st : IndexerState) (d : ParsedDocument)
    (hnd : (d.term_positions.map Prod.fst).Nodup) (hI : IndexInv st) :
    IndexInv (index_document st d) ∧
    (index_document st d).next_doc_id = st.next_doc_id + 1 := by
  obtain ⟨hch, hbnd, hlen, hinv⟩ := hI
  obtain ⟨hf1, hf2, hf3⟩ := index_document_fields st d
  have hset := setAssoc_fresh st.forward_index st.next_doc_id
    { doc_id := st.next_doc_id, url := d.url, title := d.title,
      text_content := d.text_content, term_positions := d.term_positions }
    (fun e he => Nat.ne_of_lt (hbnd e he))
  have hinit : ∀ e ∈ st.inverted_index,
      List.Chain' (· < ·) (e.2.map Posting.doc_id) ∧
      ∀ p ∈ e.2, p.doc_id ≤ st.next_doc_id ∧
        (p.doc_id = st.next_doc_id → e.1 ∉ d.term_positions.map Prod.fst) := by
    intro e2 he2
    obtain ⟨hc2, hb2⟩ := hinv e2 he2
    exact ⟨hc2, fun p hp => ⟨Nat.le_of_lt (hb2 p hp),
      fun hfr => absurd hfr (Nat.ne_of_lt (hb2 p hp))⟩⟩
  refine ⟨⟨?_, ?_, ?_, ?_⟩, hf3⟩
  · rw [hf2, hset, List.map_append, List.chain'_append]
    refine ⟨hch, by simp, ?_⟩
    intro x hx y hy
    obtain rfl : st.next_doc_id = y := by simpa using hy
    obtain ⟨e, he, rfl⟩ := List.mem_map.mp (List.mem_of_mem_getLast? hx)
    exact hbnd e he
  · rw [hf2, hset, hf3]
    intro e he
    rcases List.mem_append.mp he with h1 | h1
    · exact Nat.lt_succ_of_lt (hbnd e h1)
    · obtain rfl : e = (st.next_doc_id,
          { doc_id := st.next_doc_id, url := d.url, title := d.title,
            text_content := d.text_content, term_positions := d.term_positions }) := by
        simpa using h1
      exact Nat.lt_succ_self _
  · rw [hf2, hset, hf3, List.length_append]
    simp [hlen]
  · rw [hf1, hf3]
    intro e he
    have hres := indexTermsLoop_inv st.next_doc_id d.term_positions
      st.inverted_index 0 hnd hinit e he
    exact ⟨hres.1, fun p hp => Nat.lt_succ_of_le (hres.2 p hp)⟩

/-- C7: across any run of Indexer::index_document from the fresh
indexer, doc ids are allocated uniquely and strictly increasing (the
forward-index key sequence is strictly increasing, one entry per
admitted document, and next_doc_id counts them), and every posting list
is sorted strictly ascending by doc_id — hence duplicate-free. The
term_positions of each document carry duplicate-free keys because the
source builds them as an unordered_map. -/
theorem c7_doc_ids_and_posting_lists (docs : List ParsedDocument)
    (hkeys : ∀ d ∈ docs, (d.term_positions.map Prod.fst).Nodup)
    (final : IndexerState) (hfin : final = docs.foldl index_document initIndexer) :
    List.Chain' (· < ·) (final.forward_index.map Prod.fst) ∧
    final.forward_index.length = docs.length ∧
    final.next_doc_id = docs.length + 1 ∧
    ∀ e ∈ final.inverted_index,
      List.Chain' (· < ·) (e.2.map Posting.doc_id) ∧
      ∀ p ∈ e.2, p.doc_id < final.next_doc_id := by
  subst hfin
  suffices h : ∀ (ds : List ParsedDocument) (st : IndexerState),
      (∀ d ∈ ds, (d.term_positions.map Prod.fst).Nodup) → IndexInv st →
      IndexInv (ds.foldl index_document st) ∧
      (ds.foldl index_document st).next_doc_id = st.next_doc_id + ds.length by
    have hInit : IndexInv initIndexer :=
      ⟨by simp [initIndexer], by simp [initIndexer], by simp [initIndexer],
       by simp [initIndexer]⟩
    obtain ⟨⟨hc, hb, hl, hi⟩, hn⟩ := h docs initIndexer hkeys hInit
    have hn2 : (docs.foldl index_document initIndexer).next_doc_id =
        1 + docs.length := hn
    exact ⟨hc, by omega, by omega, hi⟩
  intro ds
  induction ds with
  | nil =>
    intro st h1 h2
    exact ⟨h2, by simp⟩
  | cons d rest ih =>
    intro st h1 h2
    rw [List.foldl_cons]
    have hd := index_document_inv st d (h1 d (List.mem_cons_self _ _)) h2
    have hr := ih (index_document st d)
      (fun d2 hd2 => h1 d2 (List.mem_cons_of_mem _ hd2)) hd.1
    refine ⟨hr.1, ?_⟩
    rw [hr.2, hd.2]
    simp only [List.length_cons]
    omega

/-- C7, witness: admitting the concrete document exDoc twice from the
fresh indexer yields strictly increasing forward doc ids, two entries,
next_doc_id 3, and sorted posting lists. -/
theorem c7_doc_ids_and_posting_lists_witness :
    List.Chain' (· < ·)
      (([exDoc, exDoc].foldl index_document initIndexer).forward_index.map Prod.fst) ∧
    ([exDoc, exDoc].foldl index_document initIndexer).next_doc_id =
      [exDoc, exDoc].length + 1 :=
  have h := c7_doc_ids_and_posting_lists [exDoc, exDoc] (by decide) _ rfl
  ⟨h.1, h.2.2.1⟩

/-- The head of an insertion is the new element or the old head. -/
theorem insertSorted_head {α : Type} (le : α → α → Bool) (a : α) (l : List α) :
    (insertSorted le a l).head? = some a ∨ (insertSorted le a l).head? = l.head? := by
  cases l with
  | nil => left; rfl
  | cons b bs =>
    simp only [insertSorted]
    split
    · left; rfl
    · right; rfl

/-- Insertion into a comparator-sorted list keeps it sorted, for a total
comparator. -/
theorem insertSorted_chain {α : Type} (le : α → α → Bool)
    (htot : ∀ a b, le a b || le b a) (a : α) (l : List α)
    (hl : List.Chain' (fun x y => le x y = true) l) :
    List.Chain' (fun x y => le x y = true) (insertSorted le a l) := by
  induction l with
  | nil => simp [insertSorted]
  | cons b bs ih =>
    simp only [insertSorted]
    split
    · rename_i hab
      refine List.chain'_cons'.mpr ⟨?_, hl⟩
      intro y hy
      obtain rfl : b = y := by simpa using hy
      exact hab
    · rename_i hab
      refine List.chain'_cons'.mpr ⟨?_, ih (List.chain'_cons'.mp hl).2⟩
      intro y hy
      rcases insertSorted_head le a bs with hh | hh
      · rw [hh] at hy
        have hy2 : a = y := by simpa using hy
        subst hy2
        rcases (Bool.or_eq_true _ _).mp (htot a b) with h3 | h3
        · exact absurd h3 (by simpa using hab)
        · exact h3
      · rw [hh] at hy
        exact (List.chain'_cons'.mp hl).1 y hy

/-- The sort model always produces a comparator-sorted list, for a total
comparator. -/
theorem sortByComparator_chain {α : Type} (le : α → α → Bool)
    (htot : ∀ a b, le a b || le b a) (l : List α) :
    List.Chain' (fun x y => le x y = true) (sortByComparator le l) := by
  induction l with
  | nil => simp [sortByComparator]
  | cons a as ih => exact insertSorted_chain le htot a _ ih

/-- The std::sort comparator of search is total: scores are linearly
ordered. -/
theorem scoreLe_total (a b : Nat × ℚ) : scoreLe a b || scoreLe b a := by
  simp only [scoreLe, Bool.or_eq_true, decide_eq_true_eq]
  exact le_total b.2 a.2

/-- The scores carried by the built results are a sublist of the sorted
score column: the result loop preserves order and only skips entries. -/
theorem build_results_scores_sublist (st : IndexerState) (l : List (Nat × ℚ)) :
    ((l.filterMap fun sd =>
        match lookupAssoc st.forward_index sd.1 with
        | none => none
        | some doc =>
          some { doc_id := sd.1, url := doc.url, title := doc.title,
                 snippet := snippetOf doc.text_content, score := sd.2 }).map
      SearchResult.score).Sublist (l.map Prod.snd) := by
  induction l with
  | nil => simp
  | cons sd rest ih =>
    rw [List.filterMap_cons]
    cases hl : lookupAssoc st.forward_index sd.1 with
    | none =>
      rw [List.map_cons]
      exact ih.cons _
    | some doc =>
      rw [List.map_cons, List.map_cons]
      exact ih.cons₂ _

/-- C6, amended: search returns results in non-increasing score order —
for every index state, query, topk, every value of the abstracted
std::log and every iteration order of the accumulator. The comparator
compares scores only, so nothing beyond this ordering is guaranteed:
the relative order of equal-score documents follows the unspecified
unordered_map iteration order, not the doc id. -/
theorem c6_amended_sorted_by_score (st : IndexerState) (logFn : ℚ → ℚ)
    (iter : List (Nat × ℚ) → List (Nat × ℚ)) (query : String) (topk : Nat) :
    List.Chain' (fun a b => b.score ≤ a.score) (search st logFn iter query topk) := by
  have hchain : List.Chain' (fun x y : Nat × ℚ => y.2 ≤ x.2)
      (sortByComparator scoreLe
        (iter (accumulate_scores st logFn (query_tokenize query)))) := by
    refine List.Chain'.imp ?_
      (sortByComparator_chain scoreLe scoreLe_total
        (iter (accumulate_scores st logFn (query_tokenize query))))
    intro a b hab
    simpa [scoreLe] using hab
  have hmap : List.Chain' (fun x y : ℚ => y ≤ x)
      (((sortByComparator scoreLe
          (iter (accumulate_scores st logFn (query_tokenize query)))).take topk).map
        Prod.snd) :=
    (List.chain'_map _).mpr (hchain.take topk)
  haveI : IsTrans ℚ (fun x y : ℚ => y ≤ x) := ⟨fun a b c h1 h2 => le_trans h2 h1⟩
  have hres := List.Chain'.sublist hmap
    (build_results_scores_sublist st
      ((sortByComparator scoreLe
        (iter (accumulate_scores st logFn (query_tokenize query)))).take topk))
  simp only [search]
  exact (List.chain'_map _).mp hres

/-- C6, counterexample: the sort comparator of search has no doc-id tie
break, so equal-score documents come out in accumulator iteration order.
In exIdx, documents 1 and 2 score identically for the query cat (the
abstracted std::log is evaluated only at 2/2 = 1, where ln 1 = 0, so
logFn = const 0 agrees exactly with the source). The reversed iteration
order — a legitimate unordered_map order, being a permutation of the
accumulator — yields results [2, 1] with equal scores, while the
identity order yields [1, 2]: the larger doc id can come first and the
ordering is not determined by the index state. -/
theorem c6_counterexample_tie_order :
    (List.reverse (accumulate_scores exIdx (fun _ => 0) (query_tokenize "cat"))).Perm
      (accumulate_scores exIdx (fun _ => 0) (query_tokenize "cat")) ∧
    (search exIdx (fun _ => 0) List.reverse "cat" 10).map SearchResult.doc_id = [2, 1] ∧
    (search exIdx (fun _ => 0) List.reverse "cat" 10).map SearchResult.score = [0, 0] ∧
    (search exIdx (fun _ => 0) id "cat" 10).map SearchResult.doc_id = [1, 2] := by
  have e1 : query_tokenize "cat" = ["cat"] := by decide
  have e2 : lookupTerm exIdx.inverted_index "cat" =
      some [⟨1, [0], (1 : ℚ)⟩, ⟨2, [0], (1 : ℚ)⟩] := by decide
  have e3 : accumulate_scores exIdx (fun _ => 0) ["cat"] = [(1, 0), (2, 0)] := by
    simp only [accumulate_scores, List.foldl_cons, List.foldl_nil, e2, mul_zero]
    norm_num [bumpScore]
  have e5 : List.reverse [((1 : Nat), (0 : ℚ)), (2, 0)] = [(2, 0), (1, 0)] := by decide
  have e6 : sortByComparator scoreLe [((2 : Nat), (0 : ℚ)), (1, 0)] = [(2, 0), (1, 0)] := by
    norm_num [sortByComparator, insertSorted, scoreLe]
  have e6b : sortByComparator scoreLe [((1 : Nat), (0 : ℚ)), (2, 0)] = [(1, 0), (2, 0)] := by
    norm_num [sortByComparator, insertSorted, scoreLe]
  have e7 : lookupAssoc exIdx.forward_index 2 =
      some { doc_id := 2, url := "https://a.test/", title := "t",
             text_content := "cat", term_positions := [("cat", [0])] } := by decide
  have e8 : lookupAssoc exIdx.forward_index 1 =
      some { doc_id := 1, url := "https://a.test/", title := "t",
             text_content := "cat", term_positions := [("cat", [0])] } := by decide
  refine ⟨List.reverse_perm _, ?_, ?_, ?_⟩
  · simp only [search, e1, e3, e5, e6]
    simp only [build_results, List.take, List.filterMap_cons, e7, e8]
    norm_num [snippetOf]
  · simp only [search, e1, e3, e5, e6]
    simp only [build_results, List.take, List.filterMap_cons, e7, e8]
    norm_num [snippetOf]
  · simp only [search, e1, e3, id]
    simp only [e6b, build_results, List.take, List.filterMap_cons, e7, e8]
    norm_num [snippetOf]

end Crawler
